import Mathlib

/-!
Verification of the ksau-go chunked upload engine (package `azure`:
`uploadChunk`, `createUploadSession`, `getFileID` and `Upload`; package `cmd`:
`verifyFileIntegrity`).

Modelling conventions:
* Go `int64` values (offsets, sizes) are modelled as `Int`; the claims under
  study quantify over positive sizes far from the `int64` boundary, so two's
  complement wrap-around is not modelled.
* The network is an oracle: each HTTP call's response is supplied by an
  environment structure, and the model counts/records the requests it makes.
  Transport-level errors (a failed `httpClient.Do`) are not modelled; every
  issued request is answered by a status code and a body.
* `fmt.Println` logging and `time.Sleep` delays are not observable in the model
  except where a claim mentions them (the hash-fetch retry delay is recorded as
  a trace event).

The file is organised as definitions first (sections mirroring the Go source),
then the theorems.
-/

namespace KsauGo

/-! ### Go strings.Contains -/

/-- Whether the char list `n` is an initial segment of `h` (Go-style byte-wise
comparison, specialised to chars). -/
def listStartsWith : List Char → List Char → Bool
  | _, [] => true
  | [], _ :: _ => false
  | a :: as, b :: bs => a = b && listStartsWith as bs

/-- Whether `n` occurs contiguously inside `h`: Go `strings.Contains` semantics
(the empty needle is contained in everything). -/
def listContains (h n : List Char) : Bool :=
  match h with
  | [] => listStartsWith [] n
  | c :: t => listStartsWith (c :: t) n || listContains t n

/-- Go `strings.Contains(hay, needle)`. -/
def strContains (hay needle : String) : Bool :=
  listContains hay.toList needle.toList

/-! ### Chunk uploader: `uploadChunk` (azure package, lines 327-374)

`uploadChunk(httpClient, uploadURL, chunk, start, end, totalSize) (bool, error)`
validates the range locally, then performs exactly one PUT, and classifies the
response status.  The Go `error` results are modelled structurally; each
constructor corresponds to one `fmt.Errorf` site and records the data that is
interpolated into the message. -/

/-- An HTTP response: status code plus body (the only parts the code inspects). -/
structure HttpResponse where
  status : Nat
  body : String
deriving DecidableEq

/-- The `error` values produced by the upload path, one constructor per
`fmt.Errorf` site:
* `invalidChunkRange`:  "invalid chunk range: start=%d, end=%d, total=%d"
* `chunkSizeMismatch`:  "chunk size mismatch: got %d bytes, expected %d bytes"
* `invalidRangeStatus`: "invalidRange: status %d, response: %s"   (HTTP 416)
* `resourceModifiedExpired`: "resourceModified: session expired"  (HTTP 409 whose body holds the marker)
* `conflictOther`:      "conflict error: status %d, response: %s" (HTTP 409 without the marker)
* `uploadFailed`:       "upload failed: status %d, response: %s"  (any other status)
* `readChunkFailed`:    "failed to read chunk %d-%d: %v"          (file.ReadAt error, Upload line 143)
* `chunkRetriesExhausted`: "failed to upload chunk after %d retries: %v" (Upload line 177) -/
inductive UploadError where
  | invalidChunkRange (start endPos total : Int)
  | chunkSizeMismatch (got expected : Int)
  | invalidRangeStatus (status : Nat) (body : String)
  | resourceModifiedExpired
  | conflictOther (status : Nat) (body : String)
  | uploadFailed (status : Nat) (body : String)
  | readChunkFailed (start endPos : Int)
  | chunkRetriesExhausted (maxRetries : Nat) (last : UploadError)
deriving DecidableEq

/-- The `switch resp.StatusCode` at the end of `uploadChunk` (lines 357-373):
201/202/200 succeed (`none`), 416 is the range error, 409 is split on whether
the response body contains `"resourceModified"`, everything else is generic. -/
def classifyPutResponse (resp : HttpResponse) : Option UploadError :=
  if resp.status = 201 ∨ resp.status = 202 ∨ resp.status = 200 then
    none
  else if resp.status = 416 then
    some (.invalidRangeStatus resp.status resp.body)
  else if resp.status = 409 then
    if strContains resp.body "resourceModified" then
      some .resourceModifiedExpired
    else
      some (.conflictOther resp.status resp.body)
  else
    some (.uploadFailed resp.status resp.body)

/-- `uploadChunk` (lines 327-374).  `resp` is the response the single PUT would
receive.  Result: the Go `(bool, error)` pair collapsed to `Option UploadError`
(`none` = success, mirroring `(true, nil)`), paired with the number of HTTP
requests actually performed, so that "fails fast without a network call" is a
statement of the model. -/
def uploadChunk (chunk : List UInt8) (start endPos totalSize : Int)
    (resp : HttpResponse) : Option UploadError × Nat :=
  if start < 0 ∨ endPos < start ∨ endPos ≥ totalSize then
    (some (.invalidChunkRange start endPos totalSize), 0)
  else
    let expectedSize := endPos - start + 1
    if (chunk.length : Int) ≠ expectedSize then
      (some (.chunkSizeMismatch chunk.length expectedSize), 0)
    else
      (classifyPutResponse resp, 1)

/-- The renewal test in `Upload` line 162:
`strings.Contains(err.Error(), "resourceModified") || strings.Contains(err.Error(), "invalidRange")`,
evaluated on the structured error.  For the two constructors whose fixed message
text begins with a marker the answer is `true` outright; for the constructors
that interpolate a response body the markers can only come from that body (the
surrounding fixed text contains neither marker, no occurrence can straddle the
boundary because the fixed text ends in a space, and the interpolated status is
all digits); the purely local errors contain no marker. -/
def triggersRenewal : UploadError → Bool
  | .invalidRangeStatus _ _ => true
  | .resourceModifiedExpired => true
  | .conflictOther _ body =>
      strContains body "resourceModified" || strContains body "invalidRange"
  | .uploadFailed _ body =>
      strContains body "resourceModified" || strContains body "invalidRange"
  | _ => false

/-- The outcomes the spec calls RangeNotSatisfiable (HTTP 416) and
SessionExpired (HTTP 409 with the `resourceModified` marker). -/
def isRenewalOutcome : UploadError → Bool
  | .invalidRangeStatus _ _ => true
  | .resourceModifiedExpired => true
  | _ => false

/-- A generic (retryable, non-renewal) failure: the 409-without-marker branch or
the default branch of the status switch. -/
def isGenericFailure : Option UploadError → Prop
  | some (.conflictOther _ _) => True
  | some (.uploadFailed _ _) => True
  | _ => False

/-- A purely local validation error of `uploadChunk` (lines 328-336). -/
def isLocalValidationError : UploadError → Prop
  | .invalidChunkRange _ _ _ => True
  | .chunkSizeMismatch _ _ => True
  | _ => False

/-! ### Range planner (Upload lines 132-137 and 184-187)

`Upload` drives chunk start offsets with
`for start := int64(0); start < fileSize; start += chunkSize` and the worker
computes `end := start + chunkSize - 1; if end >= fileSize { end = fileSize - 1 }`. -/

/-- The chunk start offsets enumerated by the producer loop (lines 184-187).
Recursion is by fuel; `fileSize.toNat` is enough fuel whenever `chunkSize ≥ 1`. -/
def chunkStartsAux (chunkSize fileSize : Int) (start : Int) : Nat → List Int
  | 0 => []
  | fuel + 1 =>
    if start < fileSize then
      start :: chunkStartsAux chunkSize fileSize (start + chunkSize) fuel
    else []

/-- All chunk start offsets of one upload. -/
def chunkStarts (fileSize chunkSize : Int) : List Int :=
  chunkStartsAux chunkSize fileSize 0 fileSize.toNat

/-- The truncated inclusive end offset of the chunk at `start` (lines 133-136). -/
def chunkEnd (chunkSize fileSize start : Int) : Int :=
  if start + chunkSize - 1 ≥ fileSize then fileSize - 1 else start + chunkSize - 1

/-- The sequence of chunk ranges (inclusive ends) the worker uploads. -/
def chunkRangesList (fileSize chunkSize : Int) : List (Int × Int) :=
  (chunkStarts fileSize chunkSize).map fun s => (s, chunkEnd chunkSize fileSize s)

/-- The byte length of an inclusive range. -/
def rangeLen (r : Int × Int) : Int := r.2 - r.1 + 1

/-- Total byte length of a list of ranges. -/
def sumLens (l : List (Int × Int)) : Int := (l.map rangeLen).sum

/-! ### Upload coordinator (`Upload`, lines 85-205) -/

/-- What the environment (file system, network, Graph service) answers during
one `Upload` call:
* `putResp start retry`: the HTTP response to the PUT for the chunk beginning at
  `start` on its attempt with 0-based retry index `retry`;
* `renewResult start retry`: the result of the `createUploadSession` call made
  after that failed attempt, `none` meaning session creation itself failed;
* `readErr start`: whether `file.ReadAt` for the chunk at `start` returns an
  error other than `io.EOF` (lines 141-145);
* `fileIDResult`: the result of the final `getFileID` lookup (lines 197-200),
  `none` covering all of its failure paths. -/
structure UploadEnv where
  putResp : Int → Nat → HttpResponse
  renewResult : Int → Nat → Option String
  readErr : Int → Bool
  fileIDResult : Option String

/-- Caller-facing upload parameters (azure/client.go lines 193-202).  Go's
`MaxRetries` is an `int` whose non-positive values run the retry loop zero
times, exactly as `0 : Nat` does here.  `RetryDelay` is carried but, like the
sleeps it controls, has no observable effect in the model;
`ProgressCallbackSet` mirrors `params.ProgressCallback != nil`. -/
structure UploadParams where
  FilePath : String
  RemoteFilePath : String
  ChunkSize : Int
  ParallelChunks : Int
  MaxRetries : Nat
  RetryDelay : Int
  AccessToken : String
  ProgressCallbackSet : Bool

/-- Observable actions of one `Upload` call, in program order:
a failed chunk read, a `uploadChunk` call (with the URL it targeted, its retry
index, its outcome, and how many HTTP requests it made), a mid-transfer
`createUploadSession` renewal, and a progress-callback invocation. -/
inductive UploadEvent where
  | readFail (start endPos : Int)
  | put (url : String) (start endPos : Int) (retry : Nat)
      (outcome : Option UploadError) (netCalls : Nat)
  | renewSession (start : Int) (retry : Nat) (result : Option String)
  | progress (total : Int)
deriving DecidableEq

/-- Result of the per-chunk retry loop (lines 148-179): its event trace, the
session URL after the loop (renewals replace it for later chunks too), whether
the chunk was uploaded, and the error it sent to `errChan`, if any. -/
structure ChunkLoopResult where
  events : List UploadEvent
  url : String
  uploaded : Bool
  chanErr : Option UploadError
deriving DecidableEq

/-- The retry loop for one chunk (lines 148-179).  `retry` is the current
0-based retry index and `rem` the number of loop iterations still allowed
(`rem = MaxRetries - retry` at every call; `rem = 0` exits the loop).  On
success the loop breaks after the progress update (done by the caller).  On
failure with retries left (`retry < MaxRetries-1`, i.e. `rem ≥ 2`) the session
is renewed first when the error message carries a renewal marker (line 162);
if renewal itself fails the old URL is kept (`continue`, line 167).  On the
final attempt the wrapped error is sent to `errChan` (line 177). -/
def chunkRetryLoop (env : UploadEnv) (chunk : List UInt8)
    (start endPos totalSize : Int) (maxRetries : Nat) (url : String)
    (retry : Nat) : Nat → ChunkLoopResult
  | 0 => { events := [], url := url, uploaded := false, chanErr := none }
  | rem + 1 =>
    match uploadChunk chunk start endPos totalSize (env.putResp start retry) with
    | (none, n) =>
      { events := [.put url start endPos retry none n],
        url := url, uploaded := true, chanErr := none }
    | (some e, n) =>
      if rem = 0 then
        { events := [.put url start endPos retry (some e) n],
          url := url, uploaded := false,
          chanErr := some (.chunkRetriesExhausted maxRetries e) }
      else if triggersRenewal e then
        match env.renewResult start retry with
        | none =>
          let r := chunkRetryLoop env chunk start endPos totalSize maxRetries
            url (retry + 1) rem
          { r with events := .put url start endPos retry (some e) n ::
              .renewSession start retry none :: r.events }
        | some newUrl =>
          let r := chunkRetryLoop env chunk start endPos totalSize maxRetries
            newUrl (retry + 1) rem
          { r with events := .put url start endPos retry (some e) n ::
              .renewSession start retry (some newUrl) :: r.events }
      else
        let r := chunkRetryLoop env chunk start endPos totalSize maxRetries
          url (retry + 1) rem
        { r with events := .put url start endPos retry (some e) n :: r.events }

/-- Shared worker state: the `uploadURL` variable captured by the worker, the
`totalUploaded` counter, the contents of `errChan` in send order, and the event
trace. -/
structure WorkerState where
  url : String
  totalUploaded : Int
  errs : List UploadError
  events : List UploadEvent
deriving DecidableEq

/-- The worker body for one chunk start (lines 132-180): range truncation, the
`file.ReadAt` whose non-EOF failure sends the read error to `errChan` and moves
on to the next chunk (`continue`, line 144), the retry loop, and on success the
mutex-protected progress update (lines 150-158: `totalUploaded` grows by the
chunk's actual length and the callback, when set, is invoked with the new
total).  The chunk buffer is `make([]byte, actualChunkSize)`; only its length
is ever inspected. -/
def processChunk (env : UploadEnv) (params : UploadParams) (fileSize : Int)
    (st : WorkerState) (start : Int) : WorkerState :=
  let endPos := chunkEnd params.ChunkSize fileSize start
  let actualChunkSize := endPos - start + 1
  if env.readErr start then
    { st with errs := st.errs ++ [.readChunkFailed start endPos],
              events := st.events ++ [.readFail start endPos] }
  else
    let chunk : List UInt8 := List.replicate actualChunkSize.toNat 0
    let r := chunkRetryLoop env chunk start endPos fileSize params.MaxRetries
      st.url 0 params.MaxRetries
    if r.uploaded then
      { url := r.url,
        totalUploaded := st.totalUploaded + actualChunkSize,
        errs := st.errs,
        events := st.events ++ r.events ++
          (if params.ProgressCallbackSet then
            [.progress (st.totalUploaded + actualChunkSize)] else []) }
    else
      { url := r.url,
        totalUploaded := st.totalUploaded,
        errs := st.errs ++ (match r.chanErr with | some e => [e] | none => []),
        events := st.events ++ r.events }

/-- What `Upload` returns (lines 192-204): the first `errChan` error wins;
otherwise `getFileID` decides between success and the metadata-fetch failure
("failed to fetch file ID"). -/
inductive UploadResult where
  | ok (fileID : String)
  | chunkFailed (first : UploadError)
  | fileIDFailed
deriving DecidableEq

/-- Everything observable about one `Upload` call. -/
structure UploadOutcome where
  result : UploadResult
  totalUploaded : Int
  errs : List UploadError
  events : List UploadEvent
deriving DecidableEq

/-- The body of `Upload` after its preamble (`EnsureTokenValid`, the initial
`createUploadSession` giving `initialUrl`, `os.Open`, `Stat` giving `fileSize`)
has succeeded — lines 115-190.  The single worker goroutine (line 128: "Use a
single worker to avoid session conflicts") drains the buffered channel of chunk
starts in order, so execution is sequential. -/
def uploadWorkerRun (env : UploadEnv) (params : UploadParams)
    (initialUrl : String) (fileSize : Int) : WorkerState :=
  (chunkStarts fileSize params.ChunkSize).foldl (processChunk env params fileSize)
    { url := initialUrl, totalUploaded := 0, errs := [], events := [] }

/-- `Upload`, lines 115-204: the worker run, then the error check (the first
error received on `errChan`, if any, fails the call, else `getFileID` is
consulted). -/
def runUpload (env : UploadEnv) (params : UploadParams) (initialUrl : String)
    (fileSize : Int) : UploadOutcome :=
  let st := uploadWorkerRun env params initialUrl fileSize
  match st.errs with
  | e :: _ =>
    { result := .chunkFailed e, totalUploaded := st.totalUploaded,
      errs := st.errs, events := st.events }
  | [] =>
    match env.fileIDResult with
    | none =>
      { result := .fileIDFailed, totalUploaded := st.totalUploaded,
        errs := [], events := st.events }
    | some id =>
      { result := .ok id, totalUploaded := st.totalUploaded,
        errs := [], events := st.events }

/-- The cumulative byte counts passed to the progress callback, in call order. -/
def progressTotals (evs : List UploadEvent) : List Int :=
  evs.filterMap fun e =>
    match e with
    | .progress t => some t
    | _ => none

/-- Whether an event is a mid-transfer session renewal. -/
def isRenewEvent : UploadEvent → Bool
  | .renewSession _ _ _ => true
  | _ => false

/-- Whether an event is a PUT attempt for the chunk at `start`. -/
def isPutFor (start : Int) : UploadEvent → Bool
  | .put _ s _ _ _ _ => s = start
  | _ => false

/-- Whether the chunk at `start` eventually uploads successfully in `env`.  By
`chunkRetryLoop_url_irrelevant` the outcome does not depend on the session URL
the loop starts from, so it is stated with a fixed dummy URL. -/
def chunkSucceeds (env : UploadEnv) (params : UploadParams)
    (fileSize start : Int) : Bool :=
  let endPos := chunkEnd params.ChunkSize fileSize start
  let chunk : List UInt8 := List.replicate (endPos - start + 1).toNat 0
  (chunkRetryLoop env chunk start endPos fileSize params.MaxRetries
    "" 0 params.MaxRetries).uploaded

/-- Whether the chunk at `start` is fully processed without error: its read
succeeds and its upload eventually succeeds. -/
def chunkOk (env : UploadEnv) (params : UploadParams)
    (fileSize start : Int) : Bool :=
  !env.readErr start && chunkSucceeds env params fileSize start

/-! ### Concrete environments used in scenario parts and counterexamples -/

/-- Fixed parameters used by the concrete scenarios: 10-byte chunks, two
attempts per chunk, progress callback installed. -/
def scenarioParams : UploadParams :=
  { FilePath := "local.bin", RemoteFilePath := "remote.bin", ChunkSize := 10,
    ParallelChunks := 4, MaxRetries := 2, RetryDelay := 5, AccessToken := "tok",
    ProgressCallbackSet := true }

/-- C2 scenario environment: the PUT for the chunk at offset 10, first attempt,
is answered 409 with a `resourceModified` body; every other PUT is answered
201; the one renewal yields `"sessionURL2"`; reads succeed; `getFileID`
succeeds. -/
def c2Env : UploadEnv :=
  { putResp := fun start retry =>
      if start = 10 ∧ retry = 0 then ⟨409, "resourceModified"⟩ else ⟨201, ""⟩,
    renewResult := fun _ _ => some "sessionURL2",
    readErr := fun _ => false,
    fileIDResult := some "fileID" }

/-- C3 counterexample environment: every PUT succeeds at once, but the final
`getFileID` lookup fails. -/
def c3Env : UploadEnv :=
  { putResp := fun _ _ => ⟨201, ""⟩,
    renewResult := fun _ _ => none,
    readErr := fun _ => false,
    fileIDResult := none }

/-- C7 counterexample environment: reading the chunk at offset 0 fails with a
non-EOF I/O error; every PUT succeeds; `getFileID` succeeds. -/
def c7Env : UploadEnv :=
  { putResp := fun _ _ => ⟨201, ""⟩,
    renewResult := fun _ _ => none,
    readErr := fun start => start = 0,
    fileIDResult := some "fileID" }

/-- All-success environment (used as witness environment). -/
def allOkEnv : UploadEnv :=
  { putResp := fun _ _ => ⟨201, ""⟩,
    renewResult := fun _ _ => none,
    readErr := fun _ => false,
    fileIDResult := some "fileID" }

/-! ### Session manager: `createUploadSession` (lines 271-307)

The request body is built as
`{"item": {"@microsoft.graph.conflictBehavior": "replace"}}` (lines 273-277) —
a hardcoded policy (note the function's own doc comment instead speaks of
"rename").  The caller-visible inputs are `remotePath` and `accessToken`;
`UploadParams` has no conflict-policy field. -/

/-- The request `createUploadSession` sends, reduced to the parts the code
chooses: target URL, authorization header, and the conflict-resolution policy
in the JSON body. -/
structure SessionRequest where
  url : String
  authHeader : String
  conflictBehavior : String
deriving DecidableEq

/-- The request construction of `createUploadSession` (lines 272-286). -/
def createUploadSessionRequest (remotePath accessToken : String) : SessionRequest :=
  { url := "https://graph.microsoft.com/v1.0/me/drive/root:/" ++ remotePath
      ++ ":/createUploadSession",
    authHeader := "Bearer " ++ accessToken,
    conflictBehavior := "replace" }

/-! ### Integrity verifier: `verifyFileIntegrity` (cmd package, lines 90-142) -/

/-- Environment of one `verifyFileIntegrity` call:
* `fetchHash i`: the result of `client.GetQuickXorHash` on attempt `i`
  (0-based), `none` meaning it returned an error;
* `localHashResult`: the Base64 QuickXorHash of the local file, `none` covering
  the local failure paths (open error or copy error). -/
structure VerifyEnv where
  fetchHash : Nat → Option String
  localHashResult : Option String

/-- Observable actions of `verifyFileIntegrity`, in program order. -/
inductive VerifyEvent where
  | fetchAttempt (i : Nat) (result : Option String)
  | sleepDelay
  | computeLocalHash (result : Option String)
  | compare (localHash remoteHash : String) (matched : Bool)
deriving DecidableEq

/-- How `verifyFileIntegrity` ends: warning that the remote hash could not be
fetched, warning that the local hash could not be computed, or a comparison
verdict. -/
inductive VerifyOutcome where
  | fetchFailedWarn
  | localFailedWarn
  | verified (matched : Bool)
deriving DecidableEq

/-- The hash-fetch retry loop (lines 97-106): attempt `i` with `rem` iterations
left (`rem = hashRetries - i`); a success breaks immediately; a failure sleeps
`hashRetryDelay` only when another attempt follows (`i < hashRetries-1`).
Returns the events, the final `fileHash` value, and whether `err == nil` after
the loop (vacuously true when the loop never runs, since `err` starts out
nil). -/
def hashFetchLoop (env : VerifyEnv) (i : Nat) :
    Nat → List VerifyEvent × String × Bool
  | 0 => ([], "", true)
  | rem + 1 =>
    match env.fetchHash i with
    | some h => ([.fetchAttempt i (some h)], h, true)
    | none =>
      if rem = 0 then ([.fetchAttempt i none], "", false)
      else
        let r := hashFetchLoop env (i + 1) rem
        (.fetchAttempt i none :: .sleepDelay :: r.1, r.2)

/-- `verifyFileIntegrity` (lines 90-142): retry only the remote-hash fetch; on
fetch failure warn and return; otherwise compute the local hash once, compare
once, and report the verdict — a mismatch is never retried. -/
def verifyFileIntegrity (env : VerifyEnv) (hashRetries : Nat) :
    List VerifyEvent × VerifyOutcome :=
  let r := hashFetchLoop env 0 hashRetries
  if r.2.2 = false then (r.1, .fetchFailedWarn)
  else
    match env.localHashResult with
    | none => (r.1 ++ [.computeLocalHash none], .localFailedWarn)
    | some localHash =>
      (r.1 ++ [.computeLocalHash (some localHash),
        .compare localHash r.2.1 (localHash == r.2.1)],
       .verified (localHash == r.2.1))

/-- The number of fetch attempts recorded in a verify trace. -/
def fetchCount (evs : List VerifyEvent) : Nat :=
  (evs.filter fun e =>
    match e with
    | .fetchAttempt _ _ => true
    | _ => false).length

/-- The number of hash comparisons recorded in a verify trace. -/
def compareCount (evs : List VerifyEvent) : Nat :=
  (evs.filter fun e =>
    match e with
    | .compare _ _ _ => true
    | _ => false).length

/-- Specification vocabulary: the trace of `k` failed fetch attempts starting
at attempt index `i`, each followed by the fixed retry delay. -/
def failedFetches (i : Nat) : Nat → List VerifyEvent
  | 0 => []
  | k + 1 => .fetchAttempt i none :: .sleepDelay :: failedFetches (i + 1) k

/-- C9 scenario: remote hash "AAA" available at once, local hash "AAA". -/
def c9EnvMatch : VerifyEnv :=
  { fetchHash := fun _ => some "AAA", localHashResult := some "AAA" }

/-- C9 scenario: remote hash "BBB" available at once, local hash "AAA". -/
def c9EnvMismatch : VerifyEnv :=
  { fetchHash := fun _ => some "BBB", localHashResult := some "AAA" }

/-! ## Theorems -/

theorem isRenewalOutcome_triggersRenewal {e : UploadError}
    (h : isRenewalOutcome e = true) : triggersRenewal e = true := by
  cases e <;> simp [isRenewalOutcome, triggersRenewal] at h ⊢

/-- **C1.** For every call to `uploadChunk` whose range and length preconditions
hold, the outcome is success exactly when the HTTP status is 200, 201 or 202; a
416 status yields the `invalidRange` range-mismatch failure; a 409 status whose
body contains the `resourceModified` marker yields the session-expired failure;
and every other status (409 without the marker included) yields a generic
failure. -/
theorem uploadChunk_outcome_classification (chunk : List UInt8)
    (start endPos totalSize : Int) (resp : HttpResponse)
    (h0 : 0 ≤ start) (h1 : start ≤ endPos) (h2 : endPos < totalSize)
    (hlen : (chunk.length : Int) = endPos - start + 1) :
    ((uploadChunk chunk start endPos totalSize resp).1 = none ↔
      (resp.status = 200 ∨ resp.status = 201 ∨ resp.status = 202)) ∧
    (resp.status = 416 →
      (uploadChunk chunk start endPos totalSize resp).1 =
        some (.invalidRangeStatus 416 resp.body)) ∧
    (resp.status = 409 → strContains resp.body "resourceModified" = true →
      (uploadChunk chunk start endPos totalSize resp).1 =
        some .resourceModifiedExpired) ∧
    (¬ (resp.status = 200 ∨ resp.status = 201 ∨ resp.status = 202) →
      resp.status ≠ 416 →
      (resp.status = 409 → strContains resp.body "resourceModified" = false) →
      isGenericFailure (uploadChunk chunk start endPos totalSize resp).1) := by
  have hv : ¬ (start < 0 ∨ endPos < start ∨ endPos ≥ totalSize) := by omega
  refine ⟨?_, ?_, ?_, ?_⟩
  · simp only [uploadChunk, if_neg hv, if_neg (by omega : ¬ (chunk.length : Int) ≠ endPos - start + 1)]
    unfold classifyPutResponse
    constructor
    · intro h
      by_cases hc : resp.status = 201 ∨ resp.status = 202 ∨ resp.status = 200
      · omega
      · rw [if_neg hc] at h
        split at h
        · exact absurd h (by simp)
        · split at h
          · split at h <;> exact absurd h (by simp)
          · exact absurd h (by simp)
    · intro h
      rw [if_pos (by omega : resp.status = 201 ∨ resp.status = 202 ∨ resp.status = 200)]
  · intro h416
    simp only [uploadChunk, if_neg hv, if_neg (by omega : ¬ (chunk.length : Int) ≠ endPos - start + 1)]
    unfold classifyPutResponse
    rw [h416]
    norm_num
  · intro h409 hbody
    simp only [uploadChunk, if_neg hv, if_neg (by omega : ¬ (chunk.length : Int) ≠ endPos - start + 1)]
    unfold classifyPutResponse
    rw [h409, hbody]
    norm_num
  · intro hns hn416 hn409
    simp only [uploadChunk, if_neg hv, if_neg (by omega : ¬ (chunk.length : Int) ≠ endPos - start + 1)]
    unfold classifyPutResponse
    rw [if_neg (by omega : ¬ (resp.status = 201 ∨ resp.status = 202 ∨ resp.status = 200)),
      if_neg (by omega : ¬ resp.status = 416)]
    split
    · next h409 =>
      rw [hn409 h409]
      simp [isGenericFailure]
    · simp [isGenericFailure]

/-- Witness for C1: a valid 201 response is a success, and a concrete 409
response whose body holds the marker is the session-expired failure. -/
theorem uploadChunk_outcome_classification_witness :
    ((uploadChunk (List.replicate 4 0) 0 3 10 ⟨201, ""⟩).1 = none) ∧
    ((uploadChunk (List.replicate 4 0) 0 3 10 ⟨409, "err resourceModified err"⟩).1 =
      some .resourceModifiedExpired) := by
  constructor
  · exact (uploadChunk_outcome_classification (List.replicate 4 0) 0 3 10 ⟨201, ""⟩
      (by decide) (by decide) (by decide) (by decide)).1.mpr (by right; left; rfl)
  · exact (uploadChunk_outcome_classification (List.replicate 4 0) 0 3 10
        ⟨409, "err resourceModified err"⟩
      (by decide) (by decide) (by decide) (by decide)).2.2.1 rfl (by decide)

/-- **C5.** A call to `uploadChunk` violating the range/length preconditions
fails locally (an invalid-range or size-mismatch error) with zero network
calls; a call satisfying them performs exactly one HTTP PUT. -/
theorem uploadChunk_validation_no_network (chunk : List UInt8)
    (start endPos totalSize : Int) (resp : HttpResponse) :
    ((start < 0 ∨ endPos < start ∨ endPos ≥ totalSize ∨
        (chunk.length : Int) ≠ endPos - start + 1) →
      (uploadChunk chunk start endPos totalSize resp).2 = 0 ∧
      ∃ e, (uploadChunk chunk start endPos totalSize resp).1 = some e ∧
        isLocalValidationError e) ∧
    ((0 ≤ start → start ≤ endPos → endPos < totalSize →
        (chunk.length : Int) = endPos - start + 1 →
      (uploadChunk chunk start endPos totalSize resp).2 = 1)) := by
  constructor
  · intro hbad
    unfold uploadChunk
    split
    · exact ⟨rfl, ⟨_, rfl, trivial⟩⟩
    · next hv =>
      rw [if_pos (by omega : (chunk.length : Int) ≠ endPos - start + 1)]
      exact ⟨rfl, ⟨_, rfl, trivial⟩⟩
  · intro h0 h1 h2 hlen
    unfold uploadChunk
    rw [if_neg (by omega : ¬ (start < 0 ∨ endPos < start ∨ endPos ≥ totalSize)),
      if_neg (by omega : ¬ (chunk.length : Int) ≠ endPos - start + 1)]

/-- Witness for C5: a length-mismatched chunk makes no network call, and a
valid one makes exactly one. -/
theorem uploadChunk_validation_no_network_witness :
    ((uploadChunk (List.replicate 3 0) 0 3 10 ⟨201, ""⟩).2 = 0 ∧
      ∃ e, (uploadChunk (List.replicate 3 0) 0 3 10 ⟨201, ""⟩).1 = some e ∧
        isLocalValidationError e) ∧
    (uploadChunk (List.replicate 4 0) 0 3 10 ⟨201, ""⟩).2 = 1 := by
  constructor
  · exact (uploadChunk_validation_no_network (List.replicate 3 0) 0 3 10 ⟨201, ""⟩).1
      (by right; right; right; decide)
  · exact (uploadChunk_validation_no_network (List.replicate 4 0) 0 3 10 ⟨201, ""⟩).2
      (by decide) (by decide) (by decide) (by decide)

theorem chunkStartsAux_nil (c N start : Int) (fuel : Nat) (h : ¬ start < N) :
    chunkStartsAux c N start fuel = [] := by
  cases fuel <;> simp [chunkStartsAux, h]

/-- Joint invariant of the start-offset loop, by induction on the fuel. -/
theorem chunkStartsAux_spec (c N : Int) (hc : 1 ≤ c) (fuel : Nat) :
    ∀ start : Int, N ≤ start + fuel →
      (∀ x ∈ chunkStartsAux c N start fuel, start ≤ x ∧ x < N) ∧
      (start < N → (chunkStartsAux c N start fuel).head? = some start) ∧
      List.Chain' (fun a b => b = a + c ∧ b < N) (chunkStartsAux c N start fuel) ∧
      List.Pairwise (fun a b => a + c ≤ b) (chunkStartsAux c N start fuel) ∧
      (∀ k, start ≤ k → k < N →
        ∃ x ∈ chunkStartsAux c N start fuel, x ≤ k ∧ k < x + c) ∧
      (start ≤ N →
        ((chunkStartsAux c N start fuel).map (fun x => chunkEnd c N x - x + 1)).sum
          = N - start) := by
  induction fuel with
  | zero =>
    intro start hfuel
    refine ⟨by simp [chunkStartsAux], by omega, by simp [chunkStartsAux],
      by simp [chunkStartsAux], by omega, ?_⟩
    intro hle
    simp only [chunkStartsAux, List.map_nil, List.sum_nil]
    omega
  | succ fuel ih =>
    intro start hfuel
    by_cases hlt : start < N
    · have hIH := ih (start + c) (by omega)
      simp only [chunkStartsAux, if_pos hlt]
      refine ⟨?_, ?_, ?_, ?_, ?_, ?_⟩
      · intro x hx
        rw [List.mem_cons] at hx
        rcases hx with rfl | hx
        · omega
        · have := hIH.1 x hx
          omega
      · intro _
        rfl
      · rw [List.chain'_cons']
        refine ⟨?_, hIH.2.2.1⟩
        intro b hb
        by_cases hcN : start + c < N
        · rw [hIH.2.1 hcN] at hb
          simp only [Option.mem_def, Option.some.injEq] at hb
          omega
        · rw [chunkStartsAux_nil c N _ fuel hcN] at hb
          simp at hb
      · rw [List.pairwise_cons]
        refine ⟨?_, hIH.2.2.2.1⟩
        intro x hx
        exact (hIH.1 x hx).1
      · intro k hk1 hk2
        by_cases hkc : k < start + c
        · exact ⟨start, by simp, by omega, by omega⟩
        · obtain ⟨x, hx, hxk⟩ := hIH.2.2.2.2.1 k (by omega) hk2
          exact ⟨x, by simp [hx], hxk⟩
      · intro _
        simp only [List.map_cons, List.sum_cons]
        by_cases hcN : start + c < N
        · rw [hIH.2.2.2.2.2 (by omega)]
          unfold chunkEnd
          rw [if_neg (by omega : ¬ start + c - 1 ≥ N)]
          omega
        · rw [chunkStartsAux_nil c N _ fuel hcN]
          simp only [List.map_nil, List.sum_nil]
          unfold chunkEnd
          split <;> omega
    · simp only [chunkStartsAux, if_neg hlt]
      refine ⟨by simp, by omega, by simp, by simp, by omega, ?_⟩
      intro hle
      simp only [List.map_nil, List.sum_nil]
      omega

/-- **C4.** For every `totalSize > 0` and `chunkSize > 0`, the ranges generated
by the upload loop lie inside `[0, totalSize)`, are contiguous (each range
begins right after its predecessor ends), ascending and pairwise non-overlapping,
cover every offset of `[0, totalSize)`, and their lengths sum to `totalSize`;
for `totalSize = 10000000`, `chunkSize = 4000000` they are exactly the three
ranges `[0,3999999]`, `[4000000,7999999]`, `[8000000,9999999]`. -/
theorem chunk_ranges_partition (totalSize chunkSize : Int)
    (hN : 0 < totalSize) (hc : 0 < chunkSize) :
    (∀ r ∈ chunkRangesList totalSize chunkSize,
        0 ≤ r.1 ∧ r.1 ≤ r.2 ∧ r.2 < totalSize) ∧
    List.Chain' (fun r₁ r₂ => r₂.1 = r₁.2 + 1) (chunkRangesList totalSize chunkSize) ∧
    List.Pairwise (fun r₁ r₂ => r₁.2 < r₂.1) (chunkRangesList totalSize chunkSize) ∧
    (∀ k, 0 ≤ k → k < totalSize →
        ∃ r ∈ chunkRangesList totalSize chunkSize, r.1 ≤ k ∧ k ≤ r.2) ∧
    sumLens (chunkRangesList totalSize chunkSize) = totalSize ∧
    chunkRangesList 10000000 4000000 =
      [(0, 3999999), (4000000, 7999999), (8000000, 9999999)] := by
  have hfuel : totalSize ≤ (0 : Int) + (totalSize.toNat : Nat) := by omega
  have hspec := chunkStartsAux_spec chunkSize totalSize (by omega) totalSize.toNat 0 hfuel
  refine ⟨?_, ?_, ?_, ?_, ?_, ?_⟩
  · intro r hr
    simp only [chunkRangesList, chunkStarts, List.mem_map] at hr
    obtain ⟨x, hx, rfl⟩ := hr
    have hb := hspec.1 x hx
    show 0 ≤ x ∧ x ≤ chunkEnd chunkSize totalSize x ∧ chunkEnd chunkSize totalSize x < totalSize
    unfold chunkEnd
    split <;> omega
  · simp only [chunkRangesList, chunkStarts, List.chain'_map]
    refine (hspec.2.2.1).imp ?_
    intro a b hab
    show b = chunkEnd chunkSize totalSize a + 1
    unfold chunkEnd
    rw [if_neg (by omega : ¬ a + chunkSize - 1 ≥ totalSize)]
    omega
  · simp only [chunkRangesList, chunkStarts, List.pairwise_map]
    refine (hspec.2.2.2.1).imp ?_
    intro a b hab
    show chunkEnd chunkSize totalSize a < b
    unfold chunkEnd
    split <;> omega
  · intro k hk0 hkN
    obtain ⟨x, hx, hxk, hkx⟩ := hspec.2.2.2.2.1 k hk0 hkN
    refine ⟨(x, chunkEnd chunkSize totalSize x), ?_, hxk, ?_⟩
    · simp only [chunkRangesList, chunkStarts, List.mem_map]
      exact ⟨x, hx, rfl⟩
    · show k ≤ chunkEnd chunkSize totalSize x
      unfold chunkEnd
      split <;> omega
  · have hsum := hspec.2.2.2.2.2 (by omega)
    simp only [sumLens, chunkRangesList, chunkStarts, List.map_map]
    show (List.map (fun x => chunkEnd chunkSize totalSize x - x + 1)
      (chunkStartsAux chunkSize totalSize 0 totalSize.toNat)).sum = totalSize
    omega
  · decide

/-- Witness for C4 at `totalSize = 10`, `chunkSize = 3`. -/
theorem chunk_ranges_partition_witness :
    sumLens (chunkRangesList 10 3) = 10 :=
  (chunk_ranges_partition 10 3 (by decide) (by decide)).2.2.2.2.1

/-- **C10.** `Upload` never reads `params.ParallelChunks` (a single worker
goroutine is started unconditionally, line 128), so the whole observable
outcome — result, byte counter, `errChan` contents, and the full event trace —
is identical for any two values of that field. -/
theorem upload_independent_of_parallelChunks (env : UploadEnv)
    (params : UploadParams) (initialUrl : String) (fileSize : Int) (a b : Int) :
    runUpload env { params with ParallelChunks := a } initialUrl fileSize =
    runUpload env { params with ParallelChunks := b } initialUrl fileSize := by
  cases params
  rfl

/-- **C2.** General part: in the retry loop, when the attempt with retry index
`retry` fails with an outcome classified range-not-satisfiable (416) or
session-expired (409 + marker) and the attempt counter is below `MaxRetries`
(`retry + rem = maxRetries` with `2 ≤ rem`, so a further attempt follows), the
very next action is the `createUploadSession` renewal, and the remaining
attempts run with the renewed URL when renewal succeeds (the old URL when it
fails).  Scenario part: in a three-chunk upload with `MaxRetries = 2` where
only chunk 1's first PUT is answered 409/`resourceModified`, exactly one
renewal happens, chunk 1 succeeds on its second attempt under the new URL, the
other chunks are delivered exactly once, and the upload succeeds. -/
theorem session_renewal_before_next_attempt :
    (∀ (env : UploadEnv) (chunk : List UInt8) (start endPos totalSize : Int)
        (maxRetries : Nat) (url : String) (retry rem : Nat)
        (e : UploadError) (n : Nat),
      retry + rem = maxRetries → 2 ≤ rem →
      uploadChunk chunk start endPos totalSize (env.putResp start retry) = (some e, n) →
      isRenewalOutcome e = true →
      chunkRetryLoop env chunk start endPos totalSize maxRetries url retry rem =
        (let r := chunkRetryLoop env chunk start endPos totalSize maxRetries
            ((env.renewResult start retry).getD url) (retry + 1) (rem - 1)
         { r with events := .put url start endPos retry (some e) n ::
             .renewSession start retry (env.renewResult start retry) :: r.events })) ∧
    ((runUpload c2Env scenarioParams "sessionURL1" 25).events =
      [.put "sessionURL1" 0 9 0 none 1, .progress 10,
       .put "sessionURL1" 10 19 0 (some .resourceModifiedExpired) 1,
       .renewSession 10 0 (some "sessionURL2"),
       .put "sessionURL2" 10 19 1 none 1, .progress 20,
       .put "sessionURL2" 20 24 0 none 1, .progress 25] ∧
     ((runUpload c2Env scenarioParams "sessionURL1" 25).events.filter isRenewEvent).length = 1 ∧
     ((runUpload c2Env scenarioParams "sessionURL1" 25).events.filter (isPutFor 0)).length = 1 ∧
     ((runUpload c2Env scenarioParams "sessionURL1" 25).events.filter (isPutFor 10)).length = 2 ∧
     ((runUpload c2Env scenarioParams "sessionURL1" 25).events.filter (isPutFor 20)).length = 1 ∧
     (runUpload c2Env scenarioParams "sessionURL1" 25).result = .ok "fileID") := by
  constructor
  · intro env chunk start endPos totalSize maxRetries url retry rem e n hsum h2 huc hre
    obtain ⟨r, rfl⟩ : ∃ r, rem = r + 2 := ⟨rem - 2, by omega⟩
    have htr : triggersRenewal e = true := isRenewalOutcome_triggersRenewal hre
    show chunkRetryLoop env chunk start endPos totalSize maxRetries url retry (r + 1 + 1) = _
    rw [chunkRetryLoop, huc]
    simp only [Nat.succ_ne_zero, if_false, htr, if_true]
    cases hrw : env.renewResult start retry <;>
      simp [hrw, Nat.add_sub_cancel]
  · refine ⟨by decide, by decide, by decide, by decide, by decide, by decide⟩

/-- Witness for C2: instantiating the general part on the scenario environment
at chunk offset 10, retry 0, where `MaxRetries = 2`: the loop's trace is the
failing PUT, then the renewal, then the remaining attempt under the new URL. -/
theorem session_renewal_before_next_attempt_witness :
    chunkRetryLoop c2Env (List.replicate 10 0) 10 19 25 2 "sessionURL1" 0 2 =
      { events := [.put "sessionURL1" 10 19 0 (some .resourceModifiedExpired) 1,
          .renewSession 10 0 (some "sessionURL2"),
          .put "sessionURL2" 10 19 1 none 1],
        url := "sessionURL2", uploaded := true, chanErr := none } := by
  have h := (session_renewal_before_next_attempt).1 c2Env (List.replicate 10 0)
    10 19 25 2 "sessionURL1" 0 2 .resourceModifiedExpired 1
    (by decide) (by decide) (by decide) (by decide)
  rw [h]
  decide

/-- The retry loop's success flag and channel error do not depend on the URL it
starts from: the URL is only recorded in events and sent on the wire, never
branched on. -/
theorem chunkRetryLoop_url_irrelevant (env : UploadEnv) (chunk : List UInt8)
    (start endPos totalSize : Int) (maxRetries : Nat) :
    ∀ (rem retry : Nat) (url₁ url₂ : String),
      (chunkRetryLoop env chunk start endPos totalSize maxRetries url₁ retry rem).uploaded =
        (chunkRetryLoop env chunk start endPos totalSize maxRetries url₂ retry rem).uploaded ∧
      (chunkRetryLoop env chunk start endPos totalSize maxRetries url₁ retry rem).chanErr =
        (chunkRetryLoop env chunk start endPos totalSize maxRetries url₂ retry rem).chanErr := by
  intro rem
  induction rem with
  | zero => intro retry url₁ url₂; exact ⟨rfl, rfl⟩
  | succ rem ih =>
    intro retry url₁ url₂
    rw [chunkRetryLoop, chunkRetryLoop]
    cases huc : uploadChunk chunk start endPos totalSize (env.putResp start retry) with
    | mk o n =>
      cases o with
      | none => exact ⟨rfl, rfl⟩
      | some e =>
        by_cases h0 : rem = 0
        · simp [h0]
        · simp only [if_neg h0]
          by_cases htr : triggersRenewal e
          · simp only [if_pos htr]
            cases env.renewResult start retry with
            | none => simpa using ih (retry + 1) url₁ url₂
            | some newUrl => simp
          · simp only [if_neg htr]
            simpa using ih (retry + 1) url₁ url₂

/-- With at least one attempt allowed, a loop run that did not upload the chunk
has sent an error to `errChan`. -/
theorem chunkRetryLoop_failed_has_err (env : UploadEnv) (chunk : List UInt8)
    (start endPos totalSize : Int) (maxRetries : Nat) :
    ∀ (rem retry : Nat) (url : String), 1 ≤ rem →
      (chunkRetryLoop env chunk start endPos totalSize maxRetries url retry rem).uploaded = false →
      ∃ e, (chunkRetryLoop env chunk start endPos totalSize maxRetries url retry rem).chanErr = some e := by
  intro rem
  induction rem with
  | zero => intro retry url h1; omega
  | succ rem ih =>
    intro retry url h1 hup
    rw [chunkRetryLoop] at hup ⊢
    cases huc : uploadChunk chunk start endPos totalSize (env.putResp start retry) with
    | mk o n =>
      rw [huc] at hup
      cases o with
      | none => simp at hup
      | some e =>
        by_cases h0 : rem = 0
        · simp [h0]
        · simp only [if_neg h0] at hup ⊢
          by_cases htr : triggersRenewal e
          · simp only [if_pos htr] at hup ⊢
            cases hrw : env.renewResult start retry with
            | none =>
              rw [hrw] at hup
              simp only at hup ⊢
              exact ih (retry + 1) url (by omega) hup
            | some newUrl =>
              rw [hrw] at hup
              simp only at hup ⊢
              exact ih (retry + 1) newUrl (by omega) hup
          · simp only [if_neg htr] at hup ⊢
            exact ih (retry + 1) url (by omega) hup

/-- Against a server that answers every PUT with a bare 500, no chunk is ever
uploaded: the classification is a generic failure on every attempt (and a
validation failure never uploads either). -/
theorem chunkRetryLoop_all500_not_uploaded (env : UploadEnv) (chunk : List UInt8)
    (start endPos totalSize : Int) (maxRetries : Nat)
    (h : ∀ r, env.putResp start r = ⟨500, ""⟩) :
    ∀ (rem retry : Nat) (url : String),
      (chunkRetryLoop env chunk start endPos totalSize maxRetries url retry rem).uploaded = false := by
  have hfails : ∀ retry, ∃ e n,
      uploadChunk chunk start endPos totalSize (env.putResp start retry) = (some e, n) := by
    intro retry
    rw [h retry]
    unfold uploadChunk
    split
    · exact ⟨_, _, rfl⟩
    · show ∃ e n,
        (if (chunk.length : Int) ≠ endPos - start + 1 then
          ((some (.chunkSizeMismatch chunk.length (endPos - start + 1)), 0) :
            Option UploadError × Nat)
        else (classifyPutResponse ⟨500, ""⟩, 1)) = (some e, n)
      split
      · exact ⟨_, _, rfl⟩
      · exact ⟨.uploadFailed 500 "", 1, by rw [show classifyPutResponse ⟨500, ""⟩ =
          some (.uploadFailed 500 "") from by decide]⟩
  intro rem
  induction rem with
  | zero => intro retry url; rfl
  | succ rem ih =>
    intro retry url
    rw [chunkRetryLoop]
    obtain ⟨e, n, huc⟩ := hfails retry
    rw [huc]
    by_cases h0 : rem = 0
    · simp [h0]
    · simp only [if_neg h0]
      by_cases htr : triggersRenewal e
      · simp only [if_pos htr]
        cases env.renewResult start retry with
        | none => simpa using ih (retry + 1) url
        | some newUrl => simpa using ih (retry + 1) newUrl
      · simp only [if_neg htr]
        simpa using ih (retry + 1) url

/-- One worker step, summarised: a fully-processed chunk adds exactly its
length to the byte counter and records no error; a failed chunk (read error or
retries exhausted) leaves the counter unchanged and appends exactly one error. -/
theorem processChunk_step (env : UploadEnv) (params : UploadParams) (N : Int)
    (st : WorkerState) (start : Int) (hr : 1 ≤ params.MaxRetries) :
    (chunkOk env params N start = true →
      (processChunk env params N st start).totalUploaded =
        st.totalUploaded + (chunkEnd params.ChunkSize N start - start + 1) ∧
      (processChunk env params N st start).errs = st.errs) ∧
    (chunkOk env params N start = false →
      (processChunk env params N st start).totalUploaded = st.totalUploaded ∧
      ∃ e, (processChunk env params N st start).errs = st.errs ++ [e]) := by
  by_cases hre : env.readErr start = true
  · refine ⟨fun h => ?_, fun _ => ?_⟩
    · rw [chunkOk, hre] at h
      simp at h
    · refine ⟨by simp [processChunk, hre], ?_⟩
      exact ⟨.readChunkFailed start (chunkEnd params.ChunkSize N start),
        by simp [processChunk, hre]⟩
  · have hre' : env.readErr start = false := by
      cases hh : env.readErr start
      · rfl
      · exact absurd hh hre
    have hurl := chunkRetryLoop_url_irrelevant env
      (List.replicate (chunkEnd params.ChunkSize N start - start + 1).toNat 0)
      start (chunkEnd params.ChunkSize N start) N params.MaxRetries
      params.MaxRetries 0 st.url ""
    have hsuc : chunkSucceeds env params N start =
        (chunkRetryLoop env
          (List.replicate (chunkEnd params.ChunkSize N start - start + 1).toNat 0)
          start (chunkEnd params.ChunkSize N start) N params.MaxRetries
          st.url 0 params.MaxRetries).uploaded := by
      simp only [chunkSucceeds]
      exact hurl.1.symm
    refine ⟨fun h => ?_, fun h => ?_⟩
    · have hu : (chunkRetryLoop env
          (List.replicate (chunkEnd params.ChunkSize N start - start + 1).toNat 0)
          start (chunkEnd params.ChunkSize N start) N params.MaxRetries
          st.url 0 params.MaxRetries).uploaded = true := by
        rw [chunkOk, hre'] at h
        simp only [Bool.not_false, Bool.true_and] at h
        rw [← hsuc]
        exact h
      constructor <;> simp [processChunk, hre', hu]
    · have hu : (chunkRetryLoop env
          (List.replicate (chunkEnd params.ChunkSize N start - start + 1).toNat 0)
          start (chunkEnd params.ChunkSize N start) N params.MaxRetries
          st.url 0 params.MaxRetries).uploaded = false := by
        rw [chunkOk, hre'] at h
        simp only [Bool.not_false, Bool.true_and] at h
        rw [← hsuc]
        exact h
      obtain ⟨e, he⟩ := chunkRetryLoop_failed_has_err env
        (List.replicate (chunkEnd params.ChunkSize N start - start + 1).toNat 0)
        start (chunkEnd params.ChunkSize N start) N params.MaxRetries
        params.MaxRetries 0 st.url hr hu
      refine ⟨by simp [processChunk, hre', hu], ⟨e, ?_⟩⟩
      simp [processChunk, hre', hu, he]

/-- Accounting invariant of the worker fold: the byte counter grows by exactly
the lengths of the chunks that are read and uploaded successfully, and the
error list stays empty exactly when every chunk is fully processed (given at
least one attempt per chunk is allowed). -/
theorem uploadFold_spec (env : UploadEnv) (params : UploadParams) (N : Int)
    (hr : 1 ≤ params.MaxRetries) :
    ∀ (ss : List Int) (st : WorkerState),
      ((ss.foldl (processChunk env params N) st).totalUploaded =
        st.totalUploaded +
          ((ss.filter (chunkOk env params N)).map
            (fun s => chunkEnd params.ChunkSize N s - s + 1)).sum) ∧
      (((ss.foldl (processChunk env params N) st).errs = []) ↔
        (st.errs = [] ∧ ∀ s ∈ ss, chunkOk env params N s = true)) := by
  intro ss
  induction ss with
  | nil => intro st; simp
  | cons s ss ih =>
    intro st
    have hstep := processChunk_step env params N st s hr
    have hih := ih (processChunk env params N st s)
    cases hok : chunkOk env params N s with
    | true =>
      obtain ⟨ht, herr⟩ := hstep.1 hok
      constructor
      · rw [List.foldl_cons, hih.1, ht, List.filter_cons_of_pos hok]
        simp only [List.map_cons, List.sum_cons]
        omega
      · rw [List.foldl_cons, hih.2, herr]
        simp [List.forall_mem_cons, hok]
    | false =>
      obtain ⟨ht, e, herr⟩ := hstep.2 hok
      constructor
      · rw [List.foldl_cons, hih.1, ht, List.filter_cons_of_neg (by simp [hok])]
      · rw [List.foldl_cons, hih.2, herr]
        constructor
        · intro ⟨h1, _⟩
          exact absurd h1 (by simp)
        · intro ⟨_, hall⟩
          have := hall s (by simp)
          rw [hok] at this
          exact absurd this (by simp)

/-- A filtered sum of positive summands is bounded by the full sum, strictly
when at least one element is filtered out. -/
theorem filtered_map_sum_bound (f : Int → Int) (p : Int → Bool) :
    ∀ l : List Int, (∀ x ∈ l, 1 ≤ f x) →
      ((l.filter p).map f).sum ≤ (l.map f).sum ∧
      ((∃ x ∈ l, p x = false) → ((l.filter p).map f).sum < (l.map f).sum) := by
  intro l
  induction l with
  | nil => intro _; simp
  | cons a l ih =>
    intro hpos
    have hih := ih fun x hx => hpos x (List.mem_cons_of_mem a hx)
    cases hpa : p a with
    | true =>
      rw [List.filter_cons_of_pos hpa]
      simp only [List.map_cons, List.sum_cons]
      constructor
      · omega
      · intro ⟨x, hx, hxp⟩
        rw [List.mem_cons] at hx
        rcases hx with rfl | hx
        · rw [hpa] at hxp
          exact absurd hxp (by simp)
        · have := hih.2 ⟨x, hx, hxp⟩
          omega
    | false =>
      rw [List.filter_cons_of_neg (by simp [hpa])]
      simp only [List.map_cons, List.sum_cons]
      have h1 := hpos a (by simp)
      constructor
      · omega
      · intro _
        omega

/-- Projections of `runUpload` down to the worker state, and how the returned
result relates to the error list. -/
theorem runUpload_proj (env : UploadEnv) (params : UploadParams)
    (initialUrl : String) (N : Int) :
    (runUpload env params initialUrl N).totalUploaded =
      (uploadWorkerRun env params initialUrl N).totalUploaded ∧
    (runUpload env params initialUrl N).errs =
      (uploadWorkerRun env params initialUrl N).errs ∧
    (runUpload env params initialUrl N).events =
      (uploadWorkerRun env params initialUrl N).events ∧
    (∀ id, (runUpload env params initialUrl N).result = .ok id →
      (uploadWorkerRun env params initialUrl N).errs = []) ∧
    ((uploadWorkerRun env params initialUrl N).errs ≠ [] →
      ∃ e, (runUpload env params initialUrl N).result = .chunkFailed e) := by
  unfold runUpload
  cases herr : (uploadWorkerRun env params initialUrl N).errs with
  | nil =>
    cases hf : env.fileIDResult with
    | none => simp [herr, hf]
    | some id => simp [herr, hf]
  | cons e rest => simp [herr]

/-- C3 counterexample: with both chunks of a 10-byte file uploading at the
first attempt but the final `getFileID` lookup failing, `bytesUploaded` equals
`totalSize` while the call is reported failed — the claimed equivalence
"accumulated bytes equal the total size iff the upload is reported successful"
does not hold. -/
theorem bytes_total_without_success :
    (runUpload c3Env scenarioParams "sessionURL1" 10).totalUploaded = 10 ∧
    (runUpload c3Env scenarioParams "sessionURL1" 10).result = .fileIDFailed := by
  constructor <;> decide

/-- **C3 (amended).** With `MaxRetries ≥ 1` and a positive chunk size, the
accumulated byte counter equals the file's total size exactly when no chunk
error was recorded; a call reported successful (a file ID is returned) has its
byte counter equal to the total size (the converse fails only through
`getFileID`); and when every PUT is answered with a generic failure for all
attempts, the call returns a chunk failure with a recorded error and the byte
counter stays strictly below the total size. -/
theorem bytes_uploaded_accounting (env : UploadEnv) (params : UploadParams)
    (initialUrl : String) (N : Int)
    (hr : 1 ≤ params.MaxRetries) (hc : 0 < params.ChunkSize) (hN : 0 ≤ N) :
    ((runUpload env params initialUrl N).totalUploaded = N ↔
      (runUpload env params initialUrl N).errs = []) ∧
    (∀ id, (runUpload env params initialUrl N).result = .ok id →
      (runUpload env params initialUrl N).totalUploaded = N) ∧
    ((∀ s r, env.putResp s r = ⟨500, ""⟩) → (∀ s, env.readErr s = false) →
      0 < N →
      (∃ e, (runUpload env params initialUrl N).result = .chunkFailed e) ∧
      (runUpload env params initialUrl N).totalUploaded < N) := by
  have hproj := runUpload_proj env params initialUrl N
  have hfold := uploadFold_spec env params N hr (chunkStarts N params.ChunkSize)
    { url := initialUrl, totalUploaded := 0, errs := [], events := [] }
  have hW : uploadWorkerRun env params initialUrl N =
      (chunkStarts N params.ChunkSize).foldl (processChunk env params N)
        { url := initialUrl, totalUploaded := 0, errs := [], events := [] } := rfl
  have hspec := chunkStartsAux_spec params.ChunkSize N (by omega) N.toNat 0 (by omega)
  have hlen1 : ∀ s ∈ chunkStarts N params.ChunkSize,
      1 ≤ chunkEnd params.ChunkSize N s - s + 1 := by
    intro s hs
    have := hspec.1 s hs
    unfold chunkEnd
    split <;> omega
  have hsumall : ((chunkStarts N params.ChunkSize).map
      (fun s => chunkEnd params.ChunkSize N s - s + 1)).sum = N := by
    have := hspec.2.2.2.2.2 (by omega)
    rw [chunkStarts, this]
    omega
  have hbound := filtered_map_sum_bound
    (fun s => chunkEnd params.ChunkSize N s - s + 1)
    (chunkOk env params N) (chunkStarts N params.ChunkSize) hlen1
  have htot : (runUpload env params initialUrl N).totalUploaded =
      (((chunkStarts N params.ChunkSize).filter (chunkOk env params N)).map
        (fun s => chunkEnd params.ChunkSize N s - s + 1)).sum := by
    rw [hproj.1, hW, hfold.1]
    simp
  have herreq : ((runUpload env params initialUrl N).errs = []) ↔
      ∀ s ∈ chunkStarts N params.ChunkSize, chunkOk env params N s = true := by
    rw [hproj.2.1, hW, hfold.2]
    simp
  have hbytes : (runUpload env params initialUrl N).errs = [] →
      (runUpload env params initialUrl N).totalUploaded = N := by
    intro he
    rw [herreq] at he
    rw [htot, List.filter_eq_self.mpr he, hsumall]
  refine ⟨⟨?_, hbytes⟩, ?_, ?_⟩
  · intro htN
    rw [herreq]
    by_contra hna
    push_neg at hna
    obtain ⟨s, hs, hsno⟩ := hna
    have hlt := hbound.2 ⟨s, hs, by
      cases hh : chunkOk env params N s
      · rfl
      · exact absurd hh hsno⟩
    rw [htot] at htN
    omega
  · intro id hok
    apply hbytes
    rw [hproj.2.1]
    exact hproj.2.2.2.1 id hok
  · intro hput hread hNpos
    have hfail : ∀ s, chunkOk env params N s = false := by
      intro s
      have hns : chunkSucceeds env params N s = false := by
        simp only [chunkSucceeds]
        exact chunkRetryLoop_all500_not_uploaded env _ s _ N params.MaxRetries
          (hput s) params.MaxRetries 0 ""
      rw [chunkOk, hread s, hns]
      rfl
    obtain ⟨x, hx, -⟩ := hspec.2.2.2.2.1 0 (by omega) hNpos
    have hne : (uploadWorkerRun env params initialUrl N).errs ≠ [] := by
      rw [hW]
      intro hnil
      have := (hfold.2.mp hnil).2 x hx
      rw [hfail x] at this
      exact absurd this (by simp)
    refine ⟨hproj.2.2.2.2 hne, ?_⟩
    rw [htot]
    have hlt := hbound.2 ⟨x, hx, hfail x⟩
    omega

/-- Witness for C3 (amended): in the all-success environment the 25-byte
upload accumulates exactly 25 bytes. -/
theorem bytes_uploaded_accounting_witness :
    (runUpload allOkEnv scenarioParams "sessionURL1" 25).totalUploaded = 25 := by
  have h := bytes_uploaded_accounting allOkEnv scenarioParams "sessionURL1" 25
    (by decide) (by decide) (by decide)
  exact h.1.mpr (by decide)

theorem progressTotals_nil : progressTotals [] = [] := rfl

theorem progressTotals_readFail (s e : Int) (l : List UploadEvent) :
    progressTotals (.readFail s e :: l) = progressTotals l := rfl

theorem progressTotals_put (url : String) (s e : Int) (r : Nat)
    (o : Option UploadError) (n : Nat) (l : List UploadEvent) :
    progressTotals (.put url s e r o n :: l) = progressTotals l := rfl

theorem progressTotals_renew (s : Int) (r : Nat) (res : Option String)
    (l : List UploadEvent) :
    progressTotals (.renewSession s r res :: l) = progressTotals l := rfl

theorem progressTotals_progress (t : Int) (l : List UploadEvent) :
    progressTotals (.progress t :: l) = t :: progressTotals l := rfl

theorem progressTotals_append (l₁ l₂ : List UploadEvent) :
    progressTotals (l₁ ++ l₂) = progressTotals l₁ ++ progressTotals l₂ := by
  simp [progressTotals, List.filterMap_append]

/-- The retry loop emits no progress events: progress is published by the
worker only after a successful loop, under the mutex. -/
theorem chunkRetryLoop_no_progress (env : UploadEnv) (chunk : List UInt8)
    (start endPos totalSize : Int) (maxRetries : Nat) :
    ∀ (rem retry : Nat) (url : String),
      progressTotals
        (chunkRetryLoop env chunk start endPos totalSize maxRetries url retry rem).events = [] := by
  intro rem
  induction rem with
  | zero => intro retry url; rfl
  | succ rem ih =>
    intro retry url
    rw [chunkRetryLoop]
    cases huc : uploadChunk chunk start endPos totalSize (env.putResp start retry) with
    | mk o n =>
      cases o with
      | none => rfl
      | some e =>
        by_cases h0 : rem = 0
        · simp only [if_pos h0]
          rfl
        · simp only [if_neg h0]
          by_cases htr : triggersRenewal e
          · simp only [if_pos htr]
            cases env.renewResult start retry with
            | none =>
              simpa [progressTotals_put, progressTotals_renew] using ih (retry + 1) url
            | some newUrl =>
              simpa [progressTotals_put, progressTotals_renew] using ih (retry + 1) newUrl
          · simp only [if_neg htr]
            simpa [progressTotals_put] using ih (retry + 1) url

/-- One worker step preserves sortedness of the published progress values,
keeps them bounded by the byte counter, and never decreases the counter. -/
theorem processChunk_progress_step (env : UploadEnv) (params : UploadParams)
    (N : Int) (st : WorkerState) (start : Int)
    (hc : 1 ≤ params.ChunkSize) (hs : start < N)
    (hp : List.Pairwise (· ≤ ·) (progressTotals st.events))
    (hb : ∀ v ∈ progressTotals st.events, v ≤ st.totalUploaded) :
    List.Pairwise (· ≤ ·) (progressTotals (processChunk env params N st start).events) ∧
    (∀ v ∈ progressTotals (processChunk env params N st start).events,
      v ≤ (processChunk env params N st start).totalUploaded) := by
  have hlen : 0 ≤ chunkEnd params.ChunkSize N start - start + 1 := by
    unfold chunkEnd
    split <;> omega
  by_cases hre : env.readErr start = true
  · constructor
    · simpa [processChunk, hre, progressTotals_append, progressTotals_readFail,
        progressTotals_nil] using hp
    · simpa [processChunk, hre, progressTotals_append, progressTotals_readFail,
        progressTotals_nil] using hb
  · have hre' : env.readErr start = false := by
      cases hh : env.readErr start
      · rfl
      · exact absurd hh hre
    have hnp := chunkRetryLoop_no_progress env
      (List.replicate (chunkEnd params.ChunkSize N start - start + 1).toNat 0)
      start (chunkEnd params.ChunkSize N start) N params.MaxRetries
      params.MaxRetries 0 st.url
    cases hu : (chunkRetryLoop env
        (List.replicate (chunkEnd params.ChunkSize N start - start + 1).toNat 0)
        start (chunkEnd params.ChunkSize N start) N params.MaxRetries
        st.url 0 params.MaxRetries).uploaded with
    | false =>
      constructor
      · simpa [processChunk, hre', hu, progressTotals_append, hnp] using hp
      · simpa [processChunk, hre', hu, progressTotals_append, hnp] using hb
    | true =>
      cases hcb : params.ProgressCallbackSet with
      | false =>
        constructor
        · simpa [processChunk, hre', hu, hcb, progressTotals_append, hnp,
            progressTotals_nil] using hp
        · intro v hv
          simp only [processChunk, hre', hu, hcb] at hv ⊢
          simp only [Bool.false_eq_true, if_false, if_true, Bool.true_eq_false] at hv ⊢
          rw [progressTotals_append, progressTotals_append, hnp,
            progressTotals_nil] at hv
          simp only [List.append_nil] at hv
          have := hb v hv
          omega
      | true =>
        have hpt : progressTotals (processChunk env params N st start).events =
            progressTotals st.events ++
              [st.totalUploaded + (chunkEnd params.ChunkSize N start - start + 1)] := by
          simp [processChunk, hre', hu, hcb, progressTotals_append, hnp,
            progressTotals_progress, progressTotals_nil]
        have htot : (processChunk env params N st start).totalUploaded =
            st.totalUploaded + (chunkEnd params.ChunkSize N start - start + 1) := by
          simp [processChunk, hre', hu]
        constructor
        · rw [hpt, List.pairwise_append]
          refine ⟨hp, by simp, ?_⟩
          intro x hx y hy
          simp only [List.mem_singleton] at hy
          subst hy
          have := hb x hx
          omega
        · intro v hv
          rw [hpt] at hv
          rw [htot]
          rw [List.mem_append] at hv
          rcases hv with hv | hv
          · have := hb v hv
            omega
          · simp only [List.mem_singleton] at hv
            omega

/-- The worker fold preserves sortedness of the published progress values. -/
theorem uploadFold_progress (env : UploadEnv) (params : UploadParams) (N : Int)
    (hc : 1 ≤ params.ChunkSize) :
    ∀ (ss : List Int) (st : WorkerState), (∀ s ∈ ss, s < N) →
      List.Pairwise (· ≤ ·) (progressTotals st.events) →
      (∀ v ∈ progressTotals st.events, v ≤ st.totalUploaded) →
      List.Pairwise (· ≤ ·)
        (progressTotals ((ss.foldl (processChunk env params N) st)).events) := by
  intro ss
  induction ss with
  | nil => intro st _ hp _; simpa using hp
  | cons s ss ih =>
    intro st hss hp hb
    rw [List.foldl_cons]
    have hstep := processChunk_progress_step env params N st s hc (hss s (by simp)) hp hb
    exact ih _ (fun x hx => hss x (by simp [hx])) hstep.1 hstep.2

/-- **C6.** The sequence of cumulative byte counts passed to the progress
callback is monotonically non-decreasing: each successful chunk adds its actual
length to the shared counter and the callback is invoked with the new total
under the mutex, so no call reports fewer bytes than a preceding call. -/
theorem progress_callback_monotone (env : UploadEnv) (params : UploadParams)
    (initialUrl : String) (N : Int) (hc : 1 ≤ params.ChunkSize) :
    List.Pairwise (· ≤ ·)
      (progressTotals (runUpload env params initialUrl N).events) := by
  rw [(runUpload_proj env params initialUrl N).2.2.1]
  have hspec := chunkStartsAux_spec params.ChunkSize N (by omega) N.toNat 0 (by omega)
  exact uploadFold_progress env params N hc (chunkStarts N params.ChunkSize) _
    (fun s hs => (hspec.1 s hs).2) (by simp [progressTotals_nil])
    (by simp [progressTotals_nil])

/-- Witness for C6: the concrete three-chunk all-success run publishes a
non-decreasing sequence of progress totals. -/
theorem progress_callback_monotone_witness :
    List.Pairwise (· ≤ ·)
      (progressTotals (runUpload allOkEnv scenarioParams "sessionURL1" 25).events) :=
  progress_callback_monotone allOkEnv scenarioParams "sessionURL1" 25 (by decide)

/-- C7 counterexample: with `MaxRetries = 2`, a non-EOF read error on the chunk
at offset 0 of a 20-byte file produces zero PUT attempts for that chunk — the
read is not retried and no upload attempt is made — and the whole call reports
failure; the claim's "retried up to the configured bound like any other
transient failure" does not hold. -/
theorem read_error_not_retried :
    (runUpload c7Env scenarioParams "sessionURL1" 20).events =
      [.readFail 0 9, .put "sessionURL1" 10 19 0 none 1, .progress 10] ∧
    ((runUpload c7Env scenarioParams "sessionURL1" 20).events.filter (isPutFor 0)).length = 0 ∧
    (runUpload c7Env scenarioParams "sessionURL1" 20).result =
      .chunkFailed (.readChunkFailed 0 9) := by
  refine ⟨by decide, by decide, by decide⟩

/-- **C7 (amended).** A non-EOF I/O error reading a chunk's bytes is not
retried: the worker records the read error on `errChan` and immediately moves
to the next chunk, leaving the byte counter unchanged and attempting no PUT for
that chunk; the remaining chunks are still processed, and any recorded error
makes the whole call report a chunk failure. -/
theorem read_error_skips_chunk (env : UploadEnv) (params : UploadParams)
    (N : Int) (st : WorkerState) (start : Int)
    (h : env.readErr start = true) :
    (processChunk env params N st start =
      { st with
        errs := st.errs ++ [.readChunkFailed start (chunkEnd params.ChunkSize N start)],
        events := st.events ++ [.readFail start (chunkEnd params.ChunkSize N start)] }) ∧
    (∀ (env' : UploadEnv) (params' : UploadParams) (u : String) (N' : Int),
      (runUpload env' params' u N').errs ≠ [] →
      ∃ e, (runUpload env' params' u N').result = .chunkFailed e) := by
  constructor
  · simp [processChunk, h]
  · intro env' params' u N' hne
    have hproj := runUpload_proj env' params' u N'
    apply hproj.2.2.2.2
    rw [← hproj.2.1]
    exact hne

/-- Witness for C7 (amended): the concrete read failure at offset 0 records
exactly the read error and no PUT event. -/
theorem read_error_skips_chunk_witness :
    processChunk c7Env scenarioParams 20
      { url := "sessionURL1", totalUploaded := 0, errs := [], events := [] } 0 =
      { url := "sessionURL1", totalUploaded := 0,
        errs := [.readChunkFailed 0 9], events := [.readFail 0 9] } := by
  have h := (read_error_skips_chunk c7Env scenarioParams 20
    { url := "sessionURL1", totalUploaded := 0, errs := [], events := [] } 0
    (by decide)).1
  rw [h]
  decide

/-- C8 counterexample: two different caller inputs produce the same hardcoded
"replace" conflict policy — the conflict-resolution policy is not selected by
the caller (and `UploadParams` has no field for it), refuting "configurable and
explicitly selected by the caller". -/
theorem conflict_policy_not_configurable :
    (createUploadSessionRequest "a.bin" "token1").conflictBehavior = "replace" ∧
    (createUploadSessionRequest "b.bin" "token2").conflictBehavior = "replace" := by
  constructor <;> rfl

/-- **C8 (amended).** The conflict-resolution policy applied when
`createUploadSession` opens an upload session is the hardcoded constant
"replace", whatever remote path and access token the caller passes; it is not
configurable (the function's own doc comment, which says "rename", is
inaccurate). -/
theorem conflict_policy_hardcoded_replace (remotePath accessToken : String) :
    (createUploadSessionRequest remotePath accessToken).conflictBehavior = "replace" :=
  rfl

theorem fetchCount_append (l₁ l₂ : List VerifyEvent) :
    fetchCount (l₁ ++ l₂) = fetchCount l₁ + fetchCount l₂ := by
  simp [fetchCount, List.filter_append]

theorem fetchCount_nil : fetchCount [] = 0 := rfl

theorem fetchCount_fetch (i : Nat) (r : Option String) (l : List VerifyEvent) :
    fetchCount (.fetchAttempt i r :: l) = fetchCount l + 1 := rfl

theorem fetchCount_sleep (l : List VerifyEvent) :
    fetchCount (.sleepDelay :: l) = fetchCount l := rfl

theorem fetchCount_compute (r : Option String) (l : List VerifyEvent) :
    fetchCount (.computeLocalHash r :: l) = fetchCount l := rfl

theorem fetchCount_compare (a b : String) (m : Bool) (l : List VerifyEvent) :
    fetchCount (.compare a b m :: l) = fetchCount l := rfl

/-- The hash-fetch loop makes at most `rem` attempts. -/
theorem hashFetchLoop_count (env : VerifyEnv) :
    ∀ (rem i : Nat), fetchCount (hashFetchLoop env i rem).1 ≤ rem := by
  intro rem
  induction rem with
  | zero => intro i; simp [hashFetchLoop, fetchCount]
  | succ rem ih =>
    intro i
    rw [hashFetchLoop]
    cases env.fetchHash i with
    | some h =>
      show fetchCount [.fetchAttempt i (some h)] ≤ rem + 1
      rw [fetchCount_fetch, fetchCount_nil]
      omega
    | none =>
      by_cases h0 : rem = 0
      · rw [if_pos h0]
        show fetchCount [.fetchAttempt i none] ≤ rem + 1
        rw [fetchCount_fetch, fetchCount_nil]
        omega
      · rw [if_neg h0]
        have := ih (i + 1)
        show fetchCount (.fetchAttempt i none :: .sleepDelay ::
          (hashFetchLoop env (i + 1) rem).1) ≤ rem + 1
        rw [fetchCount_fetch, fetchCount_sleep]
        omega

/-- Unfolding of the hash-fetch loop on the run whose first `k` attempts fail
and whose attempt `k` succeeds. -/
theorem hashFetchLoop_first_success (env : VerifyEnv) :
    ∀ (k i rem : Nat) (h : String), k < rem →
      (∀ j, j < k → env.fetchHash (i + j) = none) →
      env.fetchHash (i + k) = some h →
      hashFetchLoop env i rem =
        (failedFetches i k ++ [.fetchAttempt (i + k) (some h)], h, true) := by
  intro k
  induction k with
  | zero =>
    intro i rem h hk hnone hsome
    obtain ⟨rem', rfl⟩ : ∃ r, rem = r + 1 := ⟨rem - 1, by omega⟩
    rw [hashFetchLoop]
    rw [show i + 0 = i from rfl] at hsome
    rw [hsome]
    simp [failedFetches]
  | succ k ih =>
    intro i rem h hk hnone hsome
    obtain ⟨rem', rfl⟩ : ∃ r, rem = r + 1 := ⟨rem - 1, by omega⟩
    have h0 : env.fetchHash i = none := by
      have := hnone 0 (by omega)
      simpa using this
    have hrec := ih (i + 1) rem' h (by omega)
      (fun j hj => by
        have := hnone (j + 1) (by omega)
        rw [show i + 1 + j = i + (j + 1) from by omega]
        exact this)
      (by rw [show i + 1 + k = i + (k + 1) from by omega]; exact hsome)
    rw [show i + (k + 1) = i + 1 + k from by omega]
    rw [hashFetchLoop, h0]
    rw [if_neg (by omega : ¬ rem' = 0)]
    rw [hrec]
    simp [failedFetches]

/-- **C9.** (a) `verifyFileIntegrity` makes at most `hashRetries` fetch
attempts.  (b) When the first `i` fetch attempts fail, attempt `i` succeeds
with remote hash `h` (`i < hashRetries`), and the local hash computes to `lh`,
the whole run consists of the `i` failed attempts each followed by the fixed
delay, the successful fetch, then exactly one local-hash computation and one
comparison as the final events; the verdict is `verified (lh == h)`, a match
exactly when `lh = h`, with nothing after the comparison — a mismatch is never
retried or recomputed.  (c) Concretely: local "AAA" vs remote "AAA" is matched,
local "AAA" vs remote "BBB" is not matched, each with exactly one comparison. -/
theorem verify_retries_fetch_only :
    (∀ (env : VerifyEnv) (n : Nat), fetchCount (verifyFileIntegrity env n).1 ≤ n) ∧
    (∀ (env : VerifyEnv) (n i : Nat) (h lh : String), i < n →
      (∀ j, j < i → env.fetchHash j = none) →
      env.fetchHash i = some h →
      env.localHashResult = some lh →
      verifyFileIntegrity env n =
        (failedFetches 0 i ++ [.fetchAttempt i (some h),
          .computeLocalHash (some lh), .compare lh h (lh == h)],
         .verified (lh == h)) ∧
      ((lh == h) = true ↔ lh = h)) ∧
    ((verifyFileIntegrity c9EnvMatch 5).2 = .verified true ∧
     compareCount (verifyFileIntegrity c9EnvMatch 5).1 = 1 ∧
     (verifyFileIntegrity c9EnvMismatch 5).2 = .verified false ∧
     compareCount (verifyFileIntegrity c9EnvMismatch 5).1 = 1) := by
  refine ⟨?_, ?_, by decide, by decide, by decide, by decide⟩
  · intro env n
    have hcnt := hashFetchLoop_count env n 0
    simp only [verifyFileIntegrity]
    by_cases hb : (hashFetchLoop env 0 n).2.2 = false
    · rw [if_pos hb]
      exact hcnt
    · rw [if_neg hb]
      cases hl : env.localHashResult with
      | none =>
        show fetchCount ((hashFetchLoop env 0 n).1 ++ [.computeLocalHash none]) ≤ n
        rw [fetchCount_append, fetchCount_compute, fetchCount_nil]
        omega
      | some lh =>
        show fetchCount ((hashFetchLoop env 0 n).1 ++
          [.computeLocalHash (some lh),
           .compare lh (hashFetchLoop env 0 n).2.1 (lh == (hashFetchLoop env 0 n).2.1)]) ≤ n
        rw [fetchCount_append, fetchCount_compute, fetchCount_compare, fetchCount_nil]
        omega
  · intro env n i h lh hi hnone hsome hlocal
    have hloop := hashFetchLoop_first_success env i 0 n h hi
      (fun j hj => by simpa using hnone j hj) (by simpa using hsome)
    constructor
    · unfold verifyFileIntegrity
      rw [hloop]
      simp [hlocal]
    · simp

/-- Witness for C9: applying the success-path description to the mismatch
scenario (first fetch succeeds with "BBB", local hash "AAA"). -/
theorem verify_retries_fetch_only_witness :
    verifyFileIntegrity c9EnvMismatch 5 =
      ([.fetchAttempt 0 (some "BBB"), .computeLocalHash (some "AAA"),
        .compare "AAA" "BBB" false], .verified false) := by
  have h := (verify_retries_fetch_only.2.1 c9EnvMismatch 5 0 "BBB" "AAA"
    (by decide) (fun j hj => by omega) (by decide) (by decide)).1
  rw [h]
  decide

end KsauGo
